import Mathlib

/-!
Verification of the `HackParams` class from `count_poverty.ipynb`
(tochno-st/poverty_hack): recovery of the (location, scale) parameters of the
lognormal income distribution from published poverty statistics, and
re-evaluation of the poverty rate at a counterfactual poverty line.

The Python code is embedded shallowly over the real numbers:

* floating-point numbers are modelled as exact reals;
* `scipy.stats.norm.cdf` and the quadrature `scipy.integrate.quad` of
  `exp((-x ** 2) / 2)` are modelled as the exact standard normal CDF and the
  exact Lebesgue integral (both converge to these values);
* `scipy.optimize.fsolve` is modelled as returning an exact root when one
  exists.  When no root exists, `fsolve` does NOT raise: it returns its last
  iterate together with a status flag that the notebook ignores (the tuple
  unpacking `upper_limit, = fsolve(...)` keeps only the number).  We model
  that stale iterate as the initial guess `0`;
* Python exceptions are modelled with `Except PyErr`: `math.log` and
  `math.sqrt` raise `ValueError` (\"math domain error\") on out-of-domain
  arguments, and float division by zero raises `ZeroDivisionError`;
* Python's `round(v, 4)` is modelled with Mathlib's `round` (the two differ
  only on exact ties, where Python rounds half to even; no property below
  depends on the tie-breaking rule).
-/

open MeasureTheory Set

namespace PovertyHack

/-- Python runtime exceptions that the notebook's arithmetic can raise. -/
inductive PyErr
  | valueError
  | zeroDivisionError
deriving DecidableEq

/-- Static method `HackParams.integrand`: `np.exp((-x ** 2) / 2)`. -/
noncomputable def integrand (x : ℝ) : ℝ := Real.exp ((-x ^ 2) / 2)

/-- Function `scipy.stats.norm.cdf`, modelled as the exact standard normal CDF
`Φ(x) = (∫_{-∞}^x exp(-t²/2) dt) / √(2π)`.  The same expression models the
quadrature performed in `count_poverty` (which integrates `integrand` from
`-∞` to `u` and normalises by `1/√(2π)`). -/
noncomputable def normCdf (x : ℝ) : ℝ :=
  (∫ t in Iic x, integrand t) / Real.sqrt (2 * Real.pi)

/-- Static method `HackParams.equation`: `norm.cdf(x) - value`. -/
noncomputable def equation (x value : ℝ) : ℝ := normCdf x - value

/-- Python's `round(v, 4)`: round to 4 decimal places. -/
noncomputable def round4 (v : ℝ) : ℝ := (round (v * 10 ^ 4) : ℤ) / 10 ^ 4

open Classical in
/-- Idealised model of `scipy.optimize.fsolve f x0`: an exact root of `f`
when one exists.  `fsolve` never raises on failure; with no root it returns
its last iterate (modelled as the initial guess `x0`) and a status flag the
caller ignores. -/
noncomputable def fsolve (f : ℝ → ℝ) (x0 : ℝ) : ℝ :=
  if h : ∃ z, f z = 0 then h.choose else x0

/-- The `HackParams` class: the three attributes stored by `__init__`
(`poverty` is already divided by 100). -/
structure HackParams where
  average_income : ℝ
  poverty_line : ℝ
  poverty : ℝ

/-- Constructor `HackParams.__init__(average_income, poverty_line, poverty)`:
stores the inputs, dividing the poverty percentage by 100. -/
noncomputable def init (average_income poverty_line poverty : ℝ) : HackParams :=
  ⟨average_income, poverty_line, poverty / 100⟩

/-- Method `HackParams.find_upper_limit`:
`upper_limit, = fsolve(self.equation, 0, self.poverty)`. -/
noncomputable def HackParams.find_upper_limit (h : HackParams) : ℝ :=
  fsolve (fun x => equation x h.poverty) 0

/-- Method `HackParams.find_params`:

```
u_limit = self.find_upper_limit()
stdev = u_limit + math.sqrt(u_limit**2 + 2*math.log(self.average_income/self.poverty_line))
mu = math.log(self.average_income) - 0.5*stdev**2
return mu, stdev
```

The error cases, in Python evaluation order: division by a zero
`poverty_line` raises `ZeroDivisionError`; `math.log` of a non-positive
quotient raises `ValueError`; `math.sqrt` of a negative radicand raises
`ValueError`; `math.log` of a non-positive `average_income` raises
`ValueError`.  No further validation is performed. -/
noncomputable def HackParams.find_params (h : HackParams) : Except PyErr (ℝ × ℝ) :=
  if h.poverty_line = 0 then .error .zeroDivisionError
  else if h.average_income / h.poverty_line ≤ 0 then .error .valueError
  else if h.find_upper_limit ^ 2 + 2 * Real.log (h.average_income / h.poverty_line) < 0 then
    .error .valueError
  else if h.average_income ≤ 0 then .error .valueError
  else
    .ok (Real.log h.average_income - 0.5 * (h.find_upper_limit +
        Real.sqrt (h.find_upper_limit ^ 2 +
          2 * Real.log (h.average_income / h.poverty_line))) ^ 2,
      h.find_upper_limit + Real.sqrt (h.find_upper_limit ^ 2 +
        2 * Real.log (h.average_income / h.poverty_line)))

/-- Method `HackParams.count_poverty(new_line)`:

```
mu, sigma = self.find_params()
ln_x0 = math.log(self.average_income) - 0.5 * sigma ** 2
u = (math.log(new_line) - ln_x0) / sigma
integral, error = quad(self.integrand, -np.inf, u)
result = round((1 / math.sqrt(2 * math.pi)) * integral, 4)
return result*100
```

Error cases in Python evaluation order: an exception from `find_params`
propagates; `math.log(new_line)` raises `ValueError` for `new_line ≤ 0`;
the division by `sigma = 0` raises `ZeroDivisionError`.  `quad` reports
non-convergence through a warning and still returns its estimate, so it
contributes no error case; it is modelled as the exact integral. -/
noncomputable def HackParams.count_poverty (h : HackParams) (new_line : ℝ) :
    Except PyErr ℝ :=
  match h.find_params with
  | .error e => .error e
  | .ok (_mu, sigma) =>
    if new_line ≤ 0 then .error .valueError
    else if sigma = 0 then .error .zeroDivisionError
    else
      .ok (round4 (1 / Real.sqrt (2 * Real.pi) *
        ∫ t in Iic ((Real.log new_line -
          (Real.log h.average_income - 0.5 * sigma ^ 2)) / sigma), integrand t) * 100)

/-- A concrete `HackParams` instance built from a fully valid input triple —
positive mean income `exp(-3/8)`, positive poverty line `1`, and a poverty
percentage `100·Φ(-1) ≈ 15.87` strictly between 0 and 100 — whose fitted
scale turns out negative (`-1/2`). -/
noncomputable def negScaleInstance : HackParams :=
  init (Real.exp (-(3 : ℝ) / 8)) 1 (100 * normCdf (-1))

/-- The degree-14 Taylor partial sum (8 terms) of `exp(-t²/2)`, used to
certify numeric bounds on the Gaussian integral. -/
noncomputable def gaussPoly (t : ℝ) : ℝ :=
  1 - t ^ 2 / 2 + t ^ 4 / 8 - t ^ 6 / 48 + t ^ 8 / 384 - t ^ 10 / 3840 +
    t ^ 12 / 46080 - t ^ 14 / 645120

/-- The antiderivative of `gaussPoly` vanishing at `0`. -/
noncomputable def gaussPolyInt (t : ℝ) : ℝ :=
  t - t ^ 3 / 6 + t ^ 5 / 40 - t ^ 7 / 336 + t ^ 9 / 3456 - t ^ 11 / 42240 +
    t ^ 13 / 599040 - t ^ 15 / 9676800

/-! ### Basic facts about the Gaussian integrand and the standard normal CDF -/

lemma integrand_eq : integrand = fun t : ℝ => Real.exp (-(2⁻¹ : ℝ) * t ^ 2) := by
  funext t
  unfold integrand
  congr 1
  ring

lemma integrand_pos (t : ℝ) : 0 < integrand t := Real.exp_pos _

lemma integrand_nonneg (t : ℝ) : 0 ≤ integrand t := (integrand_pos t).le

lemma integrable_integrand : MeasureTheory.Integrable integrand := by
  rw [integrand_eq]
  exact integrable_exp_neg_mul_sq (by norm_num)

lemma integrableOn_integrand (s : Set ℝ) : MeasureTheory.IntegrableOn integrand s :=
  integrable_integrand.integrableOn

lemma integral_split (a : ℝ) :
    (∫ t in Iic a, integrand t) + ∫ t in Ioi a, integrand t = Real.sqrt (2 * Real.pi) := by
  have htot : ∫ t, integrand t = Real.sqrt (2 * Real.pi) := by
    rw [integrand_eq, integral_gaussian]
    congr 1
    rw [div_eq_mul_inv, inv_inv]
    ring
  rw [← htot,
    ← setIntegral_union (Iic_disjoint_Ioi le_rfl) measurableSet_Ioi
      (integrableOn_integrand _) (integrableOn_integrand _),
    Iic_union_Ioi, setIntegral_univ]

lemma integral_integrand_Iic_zero :
    ∫ t in Iic (0 : ℝ), integrand t = Real.sqrt (2 * Real.pi) / 2 := by
  have hIoi : ∫ t in Ioi (0 : ℝ), integrand t = Real.sqrt (2 * Real.pi) / 2 := by
    rw [integrand_eq, integral_gaussian_Ioi]
    congr 2
    rw [div_eq_mul_inv, inv_inv]
    ring
  have h := integral_split 0
  rw [hIoi] at h
  linarith

lemma integral_integrand_Ioc_pos {a b : ℝ} (hab : a < b) :
    0 < ∫ t in Ioc a b, integrand t := by
  rw [← intervalIntegral.integral_of_le hab.le]
  exact intervalIntegral.intervalIntegral_pos_of_pos_on
    integrable_integrand.intervalIntegrable (fun x _ => integrand_pos x) hab

lemma integral_Iic_split {a b : ℝ} (hab : a ≤ b) :
    ∫ t in Iic b, integrand t =
      (∫ t in Iic a, integrand t) + ∫ t in Ioc a b, integrand t := by
  rw [← setIntegral_union (Iic_disjoint_Ioc le_rfl) measurableSet_Ioc
      (integrableOn_integrand _) (integrableOn_integrand _), Iic_union_Ioc_eq_Iic hab]

lemma sqrt_two_pi_pos : 0 < Real.sqrt (2 * Real.pi) :=
  Real.sqrt_pos.mpr (by positivity)

lemma strictMono_normCdf : StrictMono normCdf := by
  have hmono : StrictMono fun x : ℝ => ∫ t in Iic x, integrand t := by
    intro a b hab
    simp only
    rw [integral_Iic_split hab.le]
    have h := integral_integrand_Ioc_pos hab
    linarith
  have h : normCdf = fun x => (∫ t in Iic x, integrand t) / Real.sqrt (2 * Real.pi) := rfl
  rw [h]
  exact hmono.div_const sqrt_two_pi_pos

lemma normCdf_zero : normCdf 0 = 1 / 2 := by
  show (∫ t in Iic (0 : ℝ), integrand t) / Real.sqrt (2 * Real.pi) = 1 / 2
  rw [integral_integrand_Iic_zero, div_div, mul_comm (2 : ℝ) (Real.sqrt (2 * Real.pi)),
    ← div_div, div_self sqrt_two_pi_pos.ne']

lemma integral_Iic_pos (x : ℝ) : 0 < ∫ t in Iic x, integrand t := by
  have h1 : 0 < ∫ t in Ioc (x - 1) x, integrand t :=
    integral_integrand_Ioc_pos (by linarith)
  have h2 : (∫ t in Ioc (x - 1) x, integrand t) ≤ ∫ t in Iic x, integrand t :=
    setIntegral_mono_set (integrableOn_integrand _)
      (Filter.Eventually.of_forall integrand_nonneg)
      (HasSubset.Subset.eventuallyLE Ioc_subset_Iic_self)
  linarith

lemma normCdf_lt_one (x : ℝ) : normCdf x < 1 := by
  have hlt : (∫ t in Iic x, integrand t) < Real.sqrt (2 * Real.pi) := by
    have h := integral_split x
    have h2 : 0 < ∫ t in Ioc x (x + 1), integrand t :=
      integral_integrand_Ioc_pos (by linarith)
    have h3 : (∫ t in Ioc x (x + 1), integrand t) ≤ ∫ t in Ioi x, integrand t :=
      setIntegral_mono_set (integrableOn_integrand _)
        (Filter.Eventually.of_forall integrand_nonneg)
        (HasSubset.Subset.eventuallyLE Ioc_subset_Ioi_self)
    linarith
  show (∫ t in Iic x, integrand t) / Real.sqrt (2 * Real.pi) < 1
  rw [div_lt_one sqrt_two_pi_pos]
  exact hlt

/-! ### Evaluating the root finder -/

lemma find_upper_limit_eq_of_root {h : HackParams} {z : ℝ}
    (hz : normCdf z = h.poverty) : h.find_upper_limit = z := by
  unfold HackParams.find_upper_limit fsolve
  have hex : ∃ x, (fun x => equation x h.poverty) x = 0 :=
    ⟨z, show normCdf z - h.poverty = 0 by rw [hz]; ring⟩
  rw [dif_pos hex]
  have hspec : normCdf hex.choose - h.poverty = 0 := hex.choose_spec
  exact strictMono_normCdf.injective (by rw [hz]; linarith)

lemma find_upper_limit_eq_zero_of_no_root {h : HackParams}
    (hnr : ¬ ∃ z, normCdf z = h.poverty) : h.find_upper_limit = 0 := by
  unfold HackParams.find_upper_limit fsolve
  apply dif_neg
  rintro ⟨z, hz⟩
  have hz2 : normCdf z - h.poverty = 0 := hz
  exact hnr ⟨z, by linarith⟩

lemma no_root_of_one_le {h : HackParams} (hp : 1 ≤ h.poverty) :
    ¬ ∃ z, normCdf z = h.poverty := by
  rintro ⟨z, hz⟩
  have hlt := normCdf_lt_one z
  linarith

/-! ### Unfolding lemmas for `find_params` and `count_poverty` -/

lemma find_params_of_pos {h : HackParams} (hl : 0 < h.poverty_line)
    (ha : 0 < h.average_income)
    (hrad : 0 ≤ h.find_upper_limit ^ 2 +
      2 * Real.log (h.average_income / h.poverty_line)) :
    h.find_params = .ok (Real.log h.average_income - 0.5 * (h.find_upper_limit +
        Real.sqrt (h.find_upper_limit ^ 2 +
          2 * Real.log (h.average_income / h.poverty_line))) ^ 2,
      h.find_upper_limit + Real.sqrt (h.find_upper_limit ^ 2 +
        2 * Real.log (h.average_income / h.poverty_line))) := by
  unfold HackParams.find_params
  rw [if_neg hl.ne', if_neg (not_le.mpr (div_pos ha hl)), if_neg (not_lt.mpr hrad),
    if_neg (not_le.mpr ha)]

lemma find_params_ok_inv {h : HackParams} {m s : ℝ}
    (hfit : h.find_params = .ok (m, s)) :
    0 < h.poverty_line ∧ 0 < h.average_income ∧
    0 ≤ h.find_upper_limit ^ 2 +
      2 * Real.log (h.average_income / h.poverty_line) ∧
    s = h.find_upper_limit + Real.sqrt (h.find_upper_limit ^ 2 +
        2 * Real.log (h.average_income / h.poverty_line)) ∧
    m = Real.log h.average_income - 0.5 * s ^ 2 := by
  unfold HackParams.find_params at hfit
  split_ifs at hfit with h1 h2 h3 h4
  injection hfit with hpair
  obtain ⟨hm, hs⟩ := Prod.ext_iff.mp hpair
  simp only at hm hs
  push_neg at h2 h3 h4
  have hT : 0 < h.poverty_line := by
    rcases lt_trichotomy h.poverty_line 0 with hc | hc | hc
    · exact absurd (div_neg_of_pos_of_neg h4 hc).le (not_le.mpr h2)
    · exact absurd hc h1
    · exact hc
  exact ⟨hT, h4, h3, hs.symm, by rw [← hm, ← hs]⟩

lemma count_poverty_ok {h : HackParams} {m s : ℝ}
    (hfit : h.find_params = .ok (m, s)) {nl : ℝ} (hnl : 0 < nl) (hs : s ≠ 0) :
    h.count_poverty nl = .ok (round4 (normCdf ((Real.log nl - m) / s)) * 100) := by
  obtain ⟨_, _, _, _, hm⟩ := find_params_ok_inv hfit
  simp only [HackParams.count_poverty, hfit]
  rw [if_neg (not_le.mpr hnl), if_neg hs, Except.ok.injEq]
  congr 2
  rw [← hm, one_div_mul_eq_div]
  rfl

lemma count_poverty_err_of_nonpos {h : HackParams} {ps : ℝ × ℝ}
    (hfit : h.find_params = .ok ps) {nl : ℝ} (hnl : nl ≤ 0) :
    h.count_poverty nl = .error .valueError := by
  obtain ⟨m, s⟩ := ps
  simp only [HackParams.count_poverty, hfit]
  rw [if_pos hnl]

/-! ### Continuity, tail bounds and surjectivity of the normal CDF -/

lemma exists_normCdf_eq {p : ℝ} (hp0 : 0 < p) (hp1 : p < 1) : ∃ z, normCdf z = p := by
  have hone : (1 : ℝ) ≤ Real.sqrt (2 * Real.pi) := by
    rw [show (1 : ℝ) = Real.sqrt 1 from Real.sqrt_one.symm]
    apply Real.sqrt_le_sqrt
    nlinarith [Real.pi_gt_three]
  have hub : ∀ x : ℝ, normCdf x ≤ Real.exp (x + 1 / 2) := by
    intro x
    have hint : IntegrableOn (fun t : ℝ => Real.exp (1 / 2) * Real.exp t) (Iic x) :=
      (integrableOn_exp_Iic x).const_mul _
    have hle : (∫ t in Iic x, integrand t) ≤
        ∫ t in Iic x, Real.exp (1 / 2) * Real.exp t := by
      apply setIntegral_mono_on (integrableOn_integrand _) hint measurableSet_Iic
      intro t _
      unfold integrand
      rw [← Real.exp_add]
      apply Real.exp_le_exp.mpr
      nlinarith [sq_nonneg (t + 1)]
    have heq : ∫ t in Iic x, Real.exp (1 / 2) * Real.exp t =
        Real.exp (1 / 2) * Real.exp x := by
      rw [integral_mul_left, integral_exp_Iic]
    rw [heq, ← Real.exp_add, show (1 : ℝ) / 2 + x = x + 1 / 2 by ring] at hle
    have h2 : normCdf x ≤ ∫ t in Iic x, integrand t :=
      div_le_self (integral_Iic_pos x).le hone
    linarith
  have hlb : ∀ x : ℝ, 1 - Real.exp (1 / 2 - x) ≤ normCdf x := by
    intro x
    have hsplit := integral_split x
    have htail : ∫ t in Ioi x, integrand t ≤ Real.exp (1 / 2 - x) := by
      have hint : IntegrableOn (fun t : ℝ => Real.exp (1 / 2) * Real.exp (-1 * t))
          (Ioi x) :=
        (exp_neg_integrableOn_Ioi x one_pos).const_mul _
      have hle : (∫ t in Ioi x, integrand t) ≤
          ∫ t in Ioi x, Real.exp (1 / 2) * Real.exp (-1 * t) := by
        apply setIntegral_mono_on (integrableOn_integrand _) hint measurableSet_Ioi
        intro t _
        unfold integrand
        rw [← Real.exp_add]
        apply Real.exp_le_exp.mpr
        nlinarith [sq_nonneg (t - 1)]
      have heq : ∫ t in Ioi x, Real.exp (1 / 2) * Real.exp (-1 * t) =
          Real.exp (1 / 2) * Real.exp (-x) := by
        rw [integral_mul_left]
        have h4 : (fun t : ℝ => Real.exp (-1 * t)) = fun t : ℝ => Real.exp (-t) := by
          funext t
          ring_nf
        rw [h4, integral_exp_neg_Ioi]
      rw [heq, ← Real.exp_add, show (1 : ℝ) / 2 + -x = 1 / 2 - x by ring] at hle
      exact hle
    have h3 : Real.exp (1 / 2 - x) / Real.sqrt (2 * Real.pi) ≤ Real.exp (1 / 2 - x) :=
      div_le_self (Real.exp_nonneg _) hone
    have h4 : normCdf x =
        1 - (∫ t in Ioi x, integrand t) / Real.sqrt (2 * Real.pi) := by
      show (∫ t in Iic x, integrand t) / Real.sqrt (2 * Real.pi) = _
      rw [show (∫ t in Iic x, integrand t) =
          Real.sqrt (2 * Real.pi) - ∫ t in Ioi x, integrand t by linarith,
        sub_div, div_self sqrt_two_pi_pos.ne']
    have h5 : (∫ t in Ioi x, integrand t) / Real.sqrt (2 * Real.pi) ≤
        Real.exp (1 / 2 - x) :=
      le_trans ((div_le_div_right sqrt_two_pi_pos).mpr htail) h3
    rw [h4]
    linarith
  have hcont : Continuous normCdf := by
    have h3 : (fun x : ℝ => ∫ t in Iic x, integrand t) =
        fun x => (∫ t in Iic (0 : ℝ), integrand t) + ∫ t in (0 : ℝ)..x, integrand t := by
      funext x
      rcases le_or_lt 0 x with hx | hx
      · rw [integral_Iic_split hx, intervalIntegral.integral_of_le hx]
      · have h1 := integral_Iic_split hx.le
        have h2 : ∫ t in (0 : ℝ)..x, integrand t = -∫ t in Ioc x 0, integrand t := by
          rw [intervalIntegral.integral_symm x 0, intervalIntegral.integral_of_le hx.le]
        rw [h2]
        linarith
    have h : Continuous fun x : ℝ => ∫ t in Iic x, integrand t := by
      rw [h3]
      exact continuous_const.add (integrable_integrand.continuous_primitive 0)
    exact h.div_const _
  obtain ⟨a, ha⟩ : ∃ a, normCdf a < p := by
    refine ⟨Real.log (p / 2) - 1 / 2, ?_⟩
    have h := hub (Real.log (p / 2) - 1 / 2)
    have h2 : Real.exp (Real.log (p / 2) - 1 / 2 + 1 / 2) = p / 2 := by
      rw [show Real.log (p / 2) - 1 / 2 + 1 / 2 = Real.log (p / 2) by ring,
        Real.exp_log (by linarith)]
    rw [h2] at h
    linarith
  obtain ⟨b, hb⟩ : ∃ b, p < normCdf b := by
    refine ⟨1 / 2 - Real.log ((1 - p) / 2), ?_⟩
    have h := hlb (1 / 2 - Real.log ((1 - p) / 2))
    have h2 : Real.exp (1 / 2 - (1 / 2 - Real.log ((1 - p) / 2))) = (1 - p) / 2 := by
      rw [show 1 / 2 - (1 / 2 - Real.log ((1 - p) / 2)) = Real.log ((1 - p) / 2) by ring,
        Real.exp_log (by linarith)]
    rw [h2] at h
    linarith
  have hab : a ≤ b := by
    by_contra hc
    push_neg at hc
    have hlt := strictMono_normCdf hc
    linarith
  obtain ⟨z, _, hz⟩ :=
    intermediate_value_Icc hab hcont.continuousOn ⟨ha.le, hb.le⟩
  exact ⟨z, hz⟩

/-! ### Arithmetic facts about `round4` -/

lemma round_mono {x y : ℝ} (hxy : x ≤ y) : round x ≤ round y := by
  rw [round_eq, round_eq]
  exact Int.floor_mono (by linarith)

lemma round4_sub_le (v : ℝ) : |round4 v - v| ≤ 1 / 20000 := by
  unfold round4
  have h := abs_sub_round (v * 10 ^ 4)
  rw [show (round (v * 10 ^ 4) : ℝ) / 10 ^ 4 - v =
      ((round (v * 10 ^ 4) : ℝ) - v * 10 ^ 4) / 10 ^ 4 by ring, abs_div,
    abs_of_pos (by norm_num : (0 : ℝ) < 10 ^ 4),
    div_le_iff (by norm_num : (0 : ℝ) < 10 ^ 4), abs_sub_comm]
  calc |v * 10 ^ 4 - (round (v * 10 ^ 4) : ℝ)| ≤ 1 / 2 := h
  _ ≤ 1 / 20000 * 10 ^ 4 := by norm_num

lemma round4_mono {x y : ℝ} (hxy : x ≤ y) : round4 x ≤ round4 y := by
  unfold round4
  apply (div_le_div_right (by norm_num : (0 : ℝ) < 10 ^ 4)).mpr
  exact_mod_cast round_mono (by nlinarith)

lemma round4_strict {x y : ℝ} (hgap : x + 1 / 10 ^ 4 ≤ y) : round4 x < round4 y := by
  have h2 : round (x * 10 ^ 4) < round (y * 10 ^ 4) := by
    rw [round_eq, round_eq]
    have h3 : ⌊x * 10 ^ 4 + 1 / 2⌋ + 1 = ⌊x * 10 ^ 4 + 1 / 2 + 1⌋ :=
      (Int.floor_add_one _).symm
    have h4 : ⌊x * 10 ^ 4 + 1 / 2 + 1⌋ ≤ ⌊y * 10 ^ 4 + 1 / 2⌋ :=
      Int.floor_mono (by nlinarith)
    omega
  unfold round4
  apply (div_lt_div_right (by norm_num : (0 : ℝ) < 10 ^ 4)).mpr
  exact_mod_cast h2

lemma round4_nonneg {x : ℝ} (hx : 0 ≤ x) : 0 ≤ round4 x := by
  unfold round4
  apply div_nonneg _ (by norm_num)
  have h : round (0 : ℝ) ≤ round (x * 10 ^ 4) := round_mono (by nlinarith)
  rw [round_zero] at h
  exact_mod_cast h

lemma round4_le_one {x : ℝ} (hx : x ≤ 1) : round4 x ≤ 1 := by
  unfold round4
  rw [div_le_one (by norm_num)]
  have h : round (x * 10 ^ 4) ≤ round ((10 : ℝ) ^ 4) := round_mono (by nlinarith)
  have h2 : round ((10 : ℝ) ^ 4) = (10 ^ 4 : ℤ) := by
    rw [show ((10 : ℝ) ^ 4) = ((10 ^ 4 : ℤ) : ℝ) by norm_num, round_intCast]
  rw [h2] at h
  exact_mod_cast h

/-! ### The round-trip algebra: the standardized threshold recovers the z-score -/

lemma standardized_eq_root {A T z s : ℝ} (hA : 0 < A) (hT : 0 < T)
    (hrad : 0 ≤ z ^ 2 + 2 * Real.log (A / T))
    (hs : s = z + Real.sqrt (z ^ 2 + 2 * Real.log (A / T))) (hs0 : s ≠ 0) :
    (Real.log T - (Real.log A - 0.5 * s ^ 2)) / s = z := by
  have hsq : Real.sqrt (z ^ 2 + 2 * Real.log (A / T)) ^ 2
      = z ^ 2 + 2 * Real.log (A / T) := Real.sq_sqrt hrad
  have hlog : Real.log (A / T) = Real.log A - Real.log T := Real.log_div hA.ne' hT.ne'
  have h1 : (s - z) ^ 2 = z ^ 2 + 2 * Real.log (A / T) := by
    rw [hs, add_sub_cancel_left]
    exact hsq
  have h2 : s ^ 2 - 2 * s * z = 2 * (Real.log A - Real.log T) := by
    nlinarith [h1, hlog]
  rw [div_eq_iff hs0]
  nlinarith [h2]

/-! ### Concrete evaluations used by witnesses and counterexamples -/

lemma init_poverty (a t p : ℝ) : (init a t p).poverty = p / 100 := rfl

lemma find_params_one_one_fifty : (init 1 1 50).find_params = Except.ok (0, 0) := by
  have hu : (init 1 1 50).find_upper_limit = 0 := by
    apply find_upper_limit_eq_of_root
    rw [normCdf_zero, init_poverty]
    norm_num
  have hlog : Real.log ((init 1 1 50).average_income / (init 1 1 50).poverty_line) = 0 := by
    norm_num [init]
  have hrad : (0 : ℝ) ≤ (init 1 1 50).find_upper_limit ^ 2 +
      2 * Real.log ((init 1 1 50).average_income / (init 1 1 50).poverty_line) := by
    rw [hu, hlog]
    norm_num
  have h := find_params_of_pos
    (show (0 : ℝ) < (init 1 1 50).poverty_line by norm_num [init])
    (show (0 : ℝ) < (init 1 1 50).average_income by norm_num [init]) hrad
  rw [h, hu, hlog]
  norm_num [init]

lemma find_params_exp2 : (init (Real.exp 2) 1 50).find_params = Except.ok (0, 2) := by
  have hu : (init (Real.exp 2) 1 50).find_upper_limit = 0 := by
    apply find_upper_limit_eq_of_root
    rw [normCdf_zero, init_poverty]
    norm_num
  have hlog : Real.log ((init (Real.exp 2) 1 50).average_income /
      (init (Real.exp 2) 1 50).poverty_line) = 2 := by
    norm_num [init, Real.log_exp]
  have hrad : (0 : ℝ) ≤ (init (Real.exp 2) 1 50).find_upper_limit ^ 2 +
      2 * Real.log ((init (Real.exp 2) 1 50).average_income /
        (init (Real.exp 2) 1 50).poverty_line) := by
    rw [hu, hlog]
    norm_num
  have h := find_params_of_pos
    (show (0 : ℝ) < (init (Real.exp 2) 1 50).poverty_line by norm_num [init])
    (show (0 : ℝ) < (init (Real.exp 2) 1 50).average_income by
      norm_num [init, Real.exp_pos]) hrad
  rw [h, hu, hlog]
  have hsqrt : Real.sqrt ((0 : ℝ) ^ 2 + 2 * 2) = 2 := by
    rw [show (0 : ℝ) ^ 2 + 2 * 2 = 2 ^ 2 by norm_num, Real.sqrt_sq (by norm_num)]
  rw [hsqrt]
  norm_num [init, Real.log_exp]

lemma round4_half : round4 (1 / 2 : ℝ) = 1 / 2 := by
  unfold round4
  rw [show (1 : ℝ) / 2 * 10 ^ 4 = ((5000 : ℤ) : ℝ) by norm_num, round_intCast]
  norm_num

lemma count_poverty_exp2_at_one :
    (init (Real.exp 2) 1 50).count_poverty 1 = Except.ok 50 := by
  rw [count_poverty_ok find_params_exp2 one_pos (by norm_num)]
  rw [Real.log_one, show ((0 : ℝ) - 0) / 2 = 0 by norm_num, normCdf_zero, round4_half]
  norm_num

lemma find_params_closed {a t p z : ℝ} (ha : 0 < a) (ht : 0 < t)
    (hz : normCdf z = p / 100)
    (hrad : 0 ≤ z ^ 2 + 2 * Real.log (a / t)) :
    (init a t p).find_params = Except.ok
      (Real.log a - 0.5 * (z + Real.sqrt (z ^ 2 + 2 * Real.log (a / t))) ^ 2,
       z + Real.sqrt (z ^ 2 + 2 * Real.log (a / t))) := by
  have hu : (init a t p).find_upper_limit = z :=
    find_upper_limit_eq_of_root (by rw [hz, init_poverty])
  have hrad2 : (0 : ℝ) ≤ (init a t p).find_upper_limit ^ 2 +
      2 * Real.log ((init a t p).average_income / (init a t p).poverty_line) := by
    rw [hu]
    exact hrad
  have h := find_params_of_pos (show (0 : ℝ) < (init a t p).poverty_line from ht)
    (show (0 : ℝ) < (init a t p).average_income from ha) hrad2
  rw [h, hu]
  rfl

lemma count_poverty_err_of_sigma_zero {h : HackParams} {m : ℝ}
    (hfit : h.find_params = Except.ok (m, 0)) {nl : ℝ} (hnl : 0 < nl) :
    h.count_poverty nl = Except.error PyErr.zeroDivisionError := by
  simp only [HackParams.count_poverty, hfit]
  rw [if_neg (not_le.mpr hnl)]
  simp

lemma count_poverty_ok_inv {h : HackParams} {nl r : ℝ}
    (hr : h.count_poverty nl = Except.ok r) :
    ∃ m s, h.find_params = Except.ok (m, s) ∧ 0 < nl ∧ s ≠ 0 ∧
      r = round4 (normCdf ((Real.log nl - m) / s)) * 100 := by
  cases hfp : h.find_params with
  | error e =>
    rw [show h.count_poverty nl = Except.error e by
      simp only [HackParams.count_poverty, hfp]] at hr
    exact absurd hr (by simp)
  | ok ps =>
    obtain ⟨m, s⟩ := ps
    rcases le_or_lt nl 0 with h1 | h1
    · rw [count_poverty_err_of_nonpos hfp h1] at hr
      exact absurd hr (by simp)
    by_cases h2 : s = 0
    · subst h2
      rw [count_poverty_err_of_sigma_zero hfp h1] at hr
      exact absurd hr (by simp)
    rw [count_poverty_ok hfp h1 h2] at hr
    injection hr with hrr
    exact ⟨m, s, rfl, h1, h2, hrr.symm⟩

/-! ### The negative-scale instance -/

lemma negScale_find_params :
    negScaleInstance.find_params = Except.ok (-(1 : ℝ) / 2, -(1 : ℝ) / 2) := by
  have hpov : negScaleInstance.poverty = normCdf (-1) := by
    have h : negScaleInstance.poverty = 100 * normCdf (-1) / 100 := rfl
    rw [h]
    ring
  have hu : negScaleInstance.find_upper_limit = -1 :=
    find_upper_limit_eq_of_root (by rw [hpov])
  have hlog : Real.log (negScaleInstance.average_income /
      negScaleInstance.poverty_line) = -(3 : ℝ) / 8 := by
    have h : negScaleInstance.average_income / negScaleInstance.poverty_line
        = Real.exp (-(3 : ℝ) / 8) / 1 := rfl
    rw [h, div_one, Real.log_exp]
  have hrad : (0 : ℝ) ≤ negScaleInstance.find_upper_limit ^ 2 +
      2 * Real.log (negScaleInstance.average_income / negScaleInstance.poverty_line) := by
    rw [hu, hlog]
    norm_num
  have hl : (0 : ℝ) < negScaleInstance.poverty_line := by
    have h : negScaleInstance.poverty_line = 1 := rfl
    rw [h]
    norm_num
  have ha : (0 : ℝ) < negScaleInstance.average_income := by
    have h : negScaleInstance.average_income = Real.exp (-(3 : ℝ) / 8) := rfl
    rw [h]
    exact Real.exp_pos _
  have h := find_params_of_pos hl ha hrad
  rw [h, hu, hlog]
  have hsqrt : Real.sqrt ((-1 : ℝ) ^ 2 + 2 * (-(3 : ℝ) / 8)) = 1 / 2 := by
    rw [show (-1 : ℝ) ^ 2 + 2 * (-(3 : ℝ) / 8) = (1 / 2) ^ 2 by norm_num,
      Real.sqrt_sq (by norm_num)]
  rw [hsqrt]
  have hlogA : Real.log negScaleInstance.average_income = -(3 : ℝ) / 8 := by
    have h2 : negScaleInstance.average_income = Real.exp (-(3 : ℝ) / 8) := rfl
    rw [h2, Real.log_exp]
  rw [hlogA]
  norm_num

/-! ### Certified numeric evaluation of the Gaussian integral -/

lemma gauss_integral_close {q : ℝ} (h0 : 0 ≤ q) (h1 : q ≤ 13 / 10) :
    |(∫ t in (0 : ℝ)..q, integrand t) - gaussPolyInt q| ≤ 11 / 10 ^ 6 := by
  have hderiv : ∀ t : ℝ, HasDerivAt gaussPolyInt (gaussPoly t) t := by
    intro t
    have h :=
      ((((((((hasDerivAt_pow 1 t).sub ((hasDerivAt_pow 3 t).div_const 6)).add
        ((hasDerivAt_pow 5 t).div_const 40)).sub ((hasDerivAt_pow 7 t).div_const 336)).add
        ((hasDerivAt_pow 9 t).div_const 3456)).sub
        ((hasDerivAt_pow 11 t).div_const 42240)).add
        ((hasDerivAt_pow 13 t).div_const 599040)).sub
        ((hasDerivAt_pow 15 t).div_const 9676800))
    have heq : gaussPolyInt = fun x : ℝ => x ^ 1 - x ^ 3 / 6 + x ^ 5 / 40 - x ^ 7 / 336 +
        x ^ 9 / 3456 - x ^ 11 / 42240 + x ^ 13 / 599040 - x ^ 15 / 9676800 := by
      funext x
      unfold gaussPolyInt
      ring
    rw [heq]
    convert h using 1
    unfold gaussPoly
    push_cast
    ring
  have hii : ∀ a b : ℝ, IntervalIntegrable gaussPoly volume a b := by
    intro a b
    apply Continuous.intervalIntegrable
    unfold gaussPoly
    fun_prop
  have hint : ∫ t in (0 : ℝ)..q, gaussPoly t = gaussPolyInt q := by
    rw [intervalIntegral.integral_eq_sub_of_hasDerivAt (fun x _ => hderiv x) (hii 0 q)]
    unfold gaussPolyInt
    norm_num
  have hclose : ∀ t : ℝ, 0 ≤ t → t ≤ 13 / 10 →
      |integrand t - gaussPoly t| ≤ 8 / 10 ^ 6 := by
    intro t ht0 ht1
    have habs : |(-t ^ 2) / 2| = t ^ 2 / 2 := by
      rw [abs_div, abs_neg, abs_of_nonneg (sq_nonneg t),
        abs_of_pos (by norm_num : (0 : ℝ) < 2)]
    have hx : |(-t ^ 2) / 2| ≤ 1 := by
      rw [habs]
      nlinarith
    have h := Real.exp_bound hx (by norm_num : 0 < 8)
    have hsum : ∑ m ∈ Finset.range 8, ((-t ^ 2) / 2) ^ m / (Nat.factorial m : ℝ)
        = gaussPoly t := by
      simp [Finset.sum_range_succ, Nat.factorial]
      unfold gaussPoly
      ring
    rw [hsum, habs] at h
    have hb : (t ^ 2 / 2) ^ 8 * ((8 : ℕ).succ / ((Nat.factorial 8 : ℝ) * 8))
        ≤ 8 / 10 ^ 6 := by
      have h2 : t ^ 2 / 2 ≤ 169 / 200 := by nlinarith
      have h3 : (t ^ 2 / 2) ^ 8 ≤ (169 / 200 : ℝ) ^ 8 :=
        pow_le_pow_left (by positivity) h2 8
      have h4 : ((8 : ℕ).succ / ((Nat.factorial 8 : ℝ) * 8)) = 9 / 322560 := by
        norm_num [Nat.factorial]
      rw [h4]
      nlinarith [h3]
    calc |integrand t - gaussPoly t|
        ≤ (t ^ 2 / 2) ^ 8 * ((8 : ℕ).succ / ((Nat.factorial 8 : ℝ) * 8)) := by
          unfold integrand
          exact h
    _ ≤ 8 / 10 ^ 6 := hb
  have hsub : (∫ t in (0 : ℝ)..q, integrand t) - gaussPolyInt q
      = ∫ t in (0 : ℝ)..q, (integrand t - gaussPoly t) := by
    rw [intervalIntegral.integral_sub integrable_integrand.intervalIntegrable
      (hii 0 q), hint]
  rw [hsub]
  have h : ∀ x ∈ Ι (0 : ℝ) q, ‖integrand x - gaussPoly x‖ ≤ 8 / 10 ^ 6 := by
    intro x hx
    rw [uIoc_of_le h0] at hx
    rw [Real.norm_eq_abs]
    exact hclose x hx.1.le (le_trans hx.2 h1)
  have h2 := intervalIntegral.norm_integral_le_of_norm_le_const h
  rw [Real.norm_eq_abs] at h2
  have h3 : |q - 0| ≤ 13 / 10 := by
    rw [sub_zero, abs_of_nonneg h0]
    exact h1
  calc |∫ t in (0 : ℝ)..q, (integrand t - gaussPoly t)|
      ≤ 8 / 10 ^ 6 * |q - 0| := h2
  _ ≤ 8 / 10 ^ 6 * (13 / 10) := by nlinarith [abs_nonneg (q - 0)]
  _ ≤ 11 / 10 ^ 6 := by norm_num

lemma normCdf_neg_eq {q : ℝ} (hq : 0 ≤ q) :
    normCdf (-q) = 1 / 2 -
      (∫ t in (0 : ℝ)..q, integrand t) / Real.sqrt (2 * Real.pi) := by
  have heven : ∀ t : ℝ, integrand (-t) = integrand t := by
    intro t
    unfold integrand
    norm_num
  have hsplit := integral_Iic_split (show -q ≤ (0 : ℝ) by linarith)
  have hflip : ∫ t in Ioc (-q) (0 : ℝ), integrand t
      = ∫ t in (0 : ℝ)..q, integrand t := by
    rw [← intervalIntegral.integral_of_le (show -q ≤ (0 : ℝ) by linarith)]
    rw [show ∫ t in (0 : ℝ)..q, integrand t = ∫ t in (0 : ℝ)..q, integrand (-t) from
      intervalIntegral.integral_congr fun x _ => (heven x).symm]
    rw [intervalIntegral.integral_comp_neg]
    norm_num
  show (∫ t in Iic (-q), integrand t) / Real.sqrt (2 * Real.pi) = _
  rw [show (∫ t in Iic (-q), integrand t) = (∫ t in Iic (0 : ℝ), integrand t) -
      ∫ t in Ioc (-q) (0 : ℝ), integrand t by linarith, integral_integrand_Iic_zero,
    hflip, sub_div, div_div, mul_comm (2 : ℝ) (Real.sqrt (2 * Real.pi)), ← div_div,
    div_self sqrt_two_pi_pos.ne']

lemma sqrt_two_pi_bounds :
    2.506628 ≤ Real.sqrt (2 * Real.pi) ∧ Real.sqrt (2 * Real.pi) ≤ 2.506629 := by
  constructor
  · rw [Real.le_sqrt (by norm_num) (by positivity)]
    nlinarith [Real.pi_gt_d6]
  · rw [show (2.506629 : ℝ) = Real.sqrt (2.506629 ^ 2) from
      (Real.sqrt_sq (by norm_num)).symm]
    apply Real.sqrt_le_sqrt
    nlinarith [Real.pi_lt_d6]

/-! ### Certified bounds on the logarithms of the scenario constants -/

lemma log_consts_bounds :
    ((10.7130163 : ℝ) ≤ Real.log 44937 ∧ Real.log 44937 ≤ 10.7130173) ∧
    ((9.5850025 : ℝ) ≤ Real.log 14545 ∧ Real.log 14545 ≤ 9.5850026) ∧
    ((1.1992435 : ℝ) ≤ Real.log ((44937 : ℝ) / 13545) ∧
      Real.log ((44937 : ℝ) / 13545) ≤ 1.1992446) := by
  have h44 : (10.7130163 : ℝ) ≤ Real.log 44937 ∧ Real.log 44937 ≤ 10.7130173 := by
    have habs : |(20599 : ℝ) / 65536| = 20599 / 65536 := by
      rw [abs_of_pos]
      norm_num
    have h := Real.abs_log_sub_add_sum_range_le
      (show |(20599 : ℝ) / 65536| < 1 by rw [habs]; norm_num) 12
    rw [habs, show (1 : ℝ) - 20599 / 65536 = 44937 / 65536 by norm_num,
      show Real.log ((44937 : ℝ) / 65536) = Real.log 44937 - 16 * Real.log 2 by
        rw [Real.log_div (by norm_num) (by norm_num),
          show (65536 : ℝ) = 2 ^ 16 by norm_num, Real.log_pow]
        push_cast
        ring,
      abs_le] at h
    have hS : (∑ i ∈ Finset.range 12, ((20599 : ℝ) / 65536) ^ (i + 1) / (i + 1))
        = (32828649776136047085424118507577266791137143068389738946075939 : ℝ) / 87000630052459395386764041405658256527178646460271518348738560 := by
      norm_num [Finset.sum_range_succ]
    rw [hS] at h
    have hE : ((20599 : ℝ) / 65536) ^ (12 + 1) / (1 - 20599 / 65536)
        ≤ 0.00000043 := by
      norm_num
    have hEnn : (0 : ℝ) ≤ ((20599 : ℝ) / 65536) ^ (12 + 1) / (1 - 20599 / 65536) := by
      positivity
    constructor <;>
      nlinarith [h.1, h.2, Real.log_two_gt_d9, Real.log_two_lt_d9]
  have h14 : (9.5850025 : ℝ) ≤ Real.log 14545 ∧ Real.log 14545 ≤ 9.5850026 := by
    have habs : |(1839 : ℝ) / 16384| = 1839 / 16384 := by
      rw [abs_of_pos]
      norm_num
    have h := Real.abs_log_sub_add_sum_range_le
      (show |(1839 : ℝ) / 16384| < 1 by rw [habs]; norm_num) 8
    rw [habs, show (1 : ℝ) - 1839 / 16384 = 14545 / 16384 by norm_num,
      show Real.log ((14545 : ℝ) / 16384) = Real.log 14545 - 14 * Real.log 2 by
        rw [Real.log_div (by norm_num) (by norm_num),
          show (16384 : ℝ) = 2 ^ 14 by norm_num, Real.log_pow]
        push_cast
        ring,
      abs_le] at h
    have hS : (∑ i ∈ Finset.range 8, ((1839 : ℝ) / 16384) ^ (i + 1) / (i + 1))
        = (173091591072963894600297358004557731 : ℝ) / 1453843120389751735988538972181626880 := by
      norm_num [Finset.sum_range_succ]
    rw [hS] at h
    have hE : ((1839 : ℝ) / 16384) ^ (8 + 1) / (1 - 1839 / 16384)
        ≤ 0.0000000032 := by
      norm_num
    have hEnn : (0 : ℝ) ≤ ((1839 : ℝ) / 16384) ^ (8 + 1) / (1 - 1839 / 16384) := by
      positivity
    constructor <;>
      nlinarith [h.1, h.2, Real.log_two_gt_d9, Real.log_two_lt_d9]
  have h13 : (9.5137727 : ℝ) ≤ Real.log 13545 ∧ Real.log 13545 ≤ 9.5137728 := by
    have habs : |(2839 : ℝ) / 16384| = 2839 / 16384 := by
      rw [abs_of_pos]
      norm_num
    have h := Real.abs_log_sub_add_sum_range_le
      (show |(2839 : ℝ) / 16384| < 1 by rw [habs]; norm_num) 9
    rw [habs, show (1 : ℝ) - 2839 / 16384 = 13545 / 16384 by norm_num,
      show Real.log ((13545 : ℝ) / 16384) = Real.log 13545 - 14 * Real.log 2 by
        rw [Real.log_div (by norm_num) (by norm_num),
          show (16384 : ℝ) = 2 ^ 14 by norm_num, Real.log_pow]
        push_cast
        ring,
      abs_le] at h
    have hS : (∑ i ∈ Finset.range 9, ((2839 : ℝ) / 16384) ^ (i + 1) / (i + 1))
        = (5099186367095147763307489283055530816357 : ℝ) / 26797236395023903997740750335251746652160 := by
      norm_num [Finset.sum_range_succ]
    rw [hS] at h
    have hE : ((2839 : ℝ) / 16384) ^ (9 + 1) / (1 - 2839 / 16384)
        ≤ 0.00000003 := by
      norm_num
    have hEnn : (0 : ℝ) ≤ ((2839 : ℝ) / 16384) ^ (9 + 1) / (1 - 2839 / 16384) := by
      positivity
    constructor <;>
      nlinarith [h.1, h.2, Real.log_two_gt_d9, Real.log_two_lt_d9]
  refine ⟨h44, h14, ?_⟩
  rw [Real.log_div (by norm_num) (by norm_num)]
  constructor <;> linarith [h44.1, h44.2, h13.1, h13.2]

/-! ### The four certified CDF evaluations -/

lemma normCdf_bracket_bounds :
    normCdf (-(1.2935 : ℝ)) < 0.098 ∧ (0.098 : ℝ) < normCdf (-(1.2925 : ℝ)) ∧
    (0.11590 : ℝ) ≤ normCdf (-(1.1955 : ℝ)) ∧ normCdf (-(1.1940 : ℝ)) ≤ 0.11628 := by
  have hI1 : (1.00767 : ℝ) ≤ ∫ t in (0 : ℝ)..(1.2935 : ℝ), integrand t := by
    have h := gauss_integral_close (show (0 : ℝ) ≤ 1.2935 by norm_num) (by norm_num)
    rw [abs_le] at h
    have hP : (1.0078669 : ℝ) ≤ gaussPolyInt 1.2935 := by
      unfold gaussPolyInt
      norm_num
    linarith [h.1]
  have hI2 : (∫ t in (0 : ℝ)..(1.2925 : ℝ), integrand t) ≤ 1.00766 := by
    have h := gauss_integral_close (show (0 : ℝ) ≤ 1.2925 by norm_num) (by norm_num)
    rw [abs_le] at h
    have hP : gaussPolyInt 1.2925 ≤ 1.0074335 := by
      unfold gaussPolyInt
      norm_num
    linarith [h.2]
  have hI3 : (∫ t in (0 : ℝ)..(1.1955 : ℝ), integrand t) ≤ 0.962692 := by
    have h := gauss_integral_close (show (0 : ℝ) ≤ 1.1955 by norm_num) (by norm_num)
    rw [abs_le] at h
    have hP : gaussPolyInt 1.1955 ≤ 0.9626809 := by
      unfold gaussPolyInt
      norm_num
    linarith [h.2]
  have hI4 : (0.961934 : ℝ) ≤ ∫ t in (0 : ℝ)..(1.1940 : ℝ), integrand t := by
    have h := gauss_integral_close (show (0 : ℝ) ≤ 1.1940 by norm_num) (by norm_num)
    rw [abs_le] at h
    have hP : (0.9619461 : ℝ) ≤ gaussPolyInt 1.1940 := by
      unfold gaussPolyInt
      norm_num
    linarith [h.1]
  refine ⟨?_, ?_, ?_, ?_⟩
  · rw [normCdf_neg_eq (by norm_num : (0 : ℝ) ≤ 1.2935)]
    have hgt : (0.402 : ℝ) <
        (∫ t in (0 : ℝ)..(1.2935 : ℝ), integrand t) / Real.sqrt (2 * Real.pi) := by
      rw [lt_div_iff sqrt_two_pi_pos]
      nlinarith [sqrt_two_pi_bounds.2, hI1]
    linarith
  · rw [normCdf_neg_eq (by norm_num : (0 : ℝ) ≤ 1.2925)]
    have hlt : (∫ t in (0 : ℝ)..(1.2925 : ℝ), integrand t) / Real.sqrt (2 * Real.pi)
        < 0.402 := by
      rw [div_lt_iff sqrt_two_pi_pos]
      nlinarith [sqrt_two_pi_bounds.1, hI2]
    linarith
  · rw [normCdf_neg_eq (by norm_num : (0 : ℝ) ≤ 1.1955)]
    have hle : (∫ t in (0 : ℝ)..(1.1955 : ℝ), integrand t) / Real.sqrt (2 * Real.pi)
        ≤ 0.3841 := by
      rw [div_le_iff sqrt_two_pi_pos]
      nlinarith [sqrt_two_pi_bounds.1, hI3]
    linarith
  · rw [normCdf_neg_eq (by norm_num : (0 : ℝ) ≤ 1.1940)]
    have hge : (0.38372 : ℝ) ≤
        (∫ t in (0 : ℝ)..(1.1940 : ℝ), integrand t) / Real.sqrt (2 * Real.pi) := by
      rw [le_div_iff sqrt_two_pi_pos]
      nlinarith [sqrt_two_pi_bounds.2, hI4]
    linarith

/-! ## The claims -/

/-- C1 (counterexample): the input triple `(1, 1, 50)` is valid —
`averageIncome = 1 > 0`, `thresholdValue = 1 > 0`, percentage `50 ∈ (0,100)` —
but the fitted scale is `0`, so `count_poverty` at the original threshold
raises `ZeroDivisionError` instead of returning a value within `0.01` of
`50`. -/
theorem c1_counterexample :
    (0 : ℝ) < 1 ∧ (0 : ℝ) < 50 ∧ (50 : ℝ) < 100 ∧
    (init 1 1 50).count_poverty 1 = Except.error PyErr.zeroDivisionError :=
  ⟨one_pos, by norm_num, by norm_num,
   count_poverty_err_of_sigma_zero find_params_one_one_fifty one_pos⟩

/-- C1 (amended): for every valid triple (`averageIncome > 0`,
`thresholdValue > 0`, percentage in `(0,100)`) on which `find_params`
succeeds with a nonzero scale, evaluating `count_poverty` at the original
threshold returns exactly `round4(p/100)·100`, which is within `0.01`
(indeed within `0.005`) of the original percentage `p`. -/
theorem c1_roundtrip (a t p m s : ℝ) (ha : 0 < a) (ht : 0 < t)
    (hp0 : 0 < p) (hp1 : p < 100)
    (hfit : (init a t p).find_params = Except.ok (m, s)) (hs : s ≠ 0) :
    (init a t p).count_poverty t = Except.ok (round4 (p / 100) * 100) ∧
    |round4 (p / 100) * 100 - p| ≤ 0.01 := by
  obtain ⟨z, hz⟩ := exists_normCdf_eq (show (0 : ℝ) < p / 100 by linarith)
    (show p / 100 < 1 by linarith)
  have hu : (init a t p).find_upper_limit = z :=
    find_upper_limit_eq_of_root (by rw [hz, init_poverty])
  obtain ⟨hT, hA, hrad, hsv, hm⟩ := find_params_ok_inv hfit
  rw [hu] at hrad hsv
  have hAa : (init a t p).average_income = a := rfl
  have hTt : (init a t p).poverty_line = t := rfl
  rw [hAa, hTt] at hrad hsv
  rw [hAa] at hm
  have hueq : (Real.log t - m) / s = z := by
    rw [hm]
    exact standardized_eq_root ha ht hrad hsv hs
  constructor
  · rw [count_poverty_ok hfit ht hs, hueq, hz]
  · have hd := round4_sub_le (p / 100)
    rw [abs_le] at hd ⊢
    constructor <;> nlinarith [hd.1, hd.2]

/-- Witness for C1: the triple `(e², 1, 50)` fits to `(0, 2)` and the round
trip through `count_poverty` returns `round4(0.5)·100 = 50`. -/
theorem c1_roundtrip_witness :
    (init (Real.exp 2) 1 50).count_poverty 1 =
      Except.ok (round4 ((50 : ℝ) / 100) * 100) ∧
    |round4 ((50 : ℝ) / 100) * 100 - 50| ≤ 0.01 :=
  c1_roundtrip (Real.exp 2) 1 50 0 2 (Real.exp_pos 2) one_pos (by norm_num)
    (by norm_num) find_params_exp2 (by norm_num)

/-- C2: whenever the z-score `z` solving `Φ(z) = p/100` exists and the
radicand `z² + 2·ln(averageIncome/thresholdValue)` is nonnegative,
`find_params` returns exactly `scale = z + √(z² + 2·ln(A/T))` and
`location = ln(A) − 0.5·scale²` — a closed form with no further search. -/
theorem c2_closed_form (a t p z : ℝ) (ha : 0 < a) (ht : 0 < t)
    (hz : normCdf z = p / 100)
    (hrad : 0 ≤ z ^ 2 + 2 * Real.log (a / t)) :
    (init a t p).find_params = Except.ok
      (Real.log a - 0.5 * (z + Real.sqrt (z ^ 2 + 2 * Real.log (a / t))) ^ 2,
       z + Real.sqrt (z ^ 2 + 2 * Real.log (a / t))) :=
  find_params_closed ha ht hz hrad

/-- Witness for C2 at `(e², 1, 50)` with `z = 0`. -/
theorem c2_closed_form_witness :
    (init (Real.exp 2) 1 50).find_params = Except.ok
      (Real.log (Real.exp 2) - 0.5 * ((0 : ℝ) + Real.sqrt ((0 : ℝ) ^ 2 +
        2 * Real.log (Real.exp 2 / 1))) ^ 2,
       (0 : ℝ) + Real.sqrt ((0 : ℝ) ^ 2 + 2 * Real.log (Real.exp 2 / 1))) :=
  c2_closed_form (Real.exp 2) 1 50 0 (Real.exp_pos 2) one_pos
    (by rw [normCdf_zero]; norm_num)
    (by rw [div_one, Real.log_exp]; norm_num)

set_option maxHeartbeats 2000000 in
/-- C3: the end-to-end reference scenario: for `averageIncome = 44937`,
`thresholdValue = 13545`, `cumulativeFractionPercent = 9.8`, `find_params`
returns a location within `1e-3` of `10.4506` and a scale within `1e-3` of
`0.7245`, and `count_poverty 14545` returns a value within `0.05` of
`11.61`. -/
theorem c3_end_to_end :
    ∃ m s r : ℝ,
      (init 44937 13545 9.8).find_params = Except.ok (m, s) ∧
      |m - 10.4506| ≤ 1 / 1000 ∧ |s - 0.7245| ≤ 1 / 1000 ∧
      (init 44937 13545 9.8).count_poverty 14545 = Except.ok r ∧
      |r - 11.61| ≤ 5 / 100 := by
  obtain ⟨z, hz⟩ := exists_normCdf_eq (show (0 : ℝ) < 9.8 / 100 by norm_num)
    (show (9.8 : ℝ) / 100 < 1 by norm_num)
  have hz098 : normCdf z = 0.098 := by
    rw [hz]
    norm_num
  have hz1 : -(1.2935 : ℝ) < z :=
    strictMono_normCdf.lt_iff_lt.mp (by rw [hz098]; exact normCdf_bracket_bounds.1)
  have hz2 : z < -(1.2925 : ℝ) :=
    strictMono_normCdf.lt_iff_lt.mp (by rw [hz098]; exact normCdf_bracket_bounds.2.1)
  have hd := log_consts_bounds.2.2
  have hrad : (0 : ℝ) ≤ z ^ 2 + 2 * Real.log ((44937 : ℝ) / 13545) := by
    nlinarith [sq_nonneg z, hd.1]
  have hfit := find_params_closed (show (0 : ℝ) < 44937 by norm_num)
    (show (0 : ℝ) < 13545 by norm_num) hz hrad
  set d := Real.log ((44937 : ℝ) / 13545) with hdd
  set s := z + Real.sqrt (z ^ 2 + 2 * d) with hss
  set m := Real.log 44937 - 0.5 * s ^ 2 with hmm
  have hsqnn : 0 ≤ Real.sqrt (z ^ 2 + 2 * d) := Real.sqrt_nonneg _
  have hsq : Real.sqrt (z ^ 2 + 2 * d) ^ 2 = z ^ 2 + 2 * d := Real.sq_sqrt hrad
  have hs_quad : s ^ 2 = 2 * d + 2 * s * z := by
    have h1 : (s - z) ^ 2 = z ^ 2 + 2 * d := by
      rw [hss, add_sub_cancel_left]
      exact hsq
    nlinarith [h1]
  have hrge : (4.069 : ℝ) ≤ z ^ 2 + 2 * d := by
    nlinarith [hd.1, mul_nonneg (show (0 : ℝ) ≤ -(z + 1.2925) by linarith)
      (show (0 : ℝ) ≤ -(z - 1.2925) by linarith)]
  have hsqrt_ge : (2.017 : ℝ) ≤ Real.sqrt (z ^ 2 + 2 * d) := by
    rw [Real.le_sqrt (by norm_num) (by linarith)]
    linarith
  have hs_pos : 0 < s := by
    rw [hss]
    linarith
  have hs_lo : (0.72425 : ℝ) ≤ s := by
    by_contra hc
    push_neg at hc
    nlinarith [hs_quad, hd.1, mul_pos hs_pos (show (0 : ℝ) < z + 1.2935 by linarith),
      mul_pos (show (0 : ℝ) < 0.72425 - s by linarith)
        (show (0 : ℝ) < s + 3.3110 by linarith)]
  have hs_hi : s ≤ 0.72475 := by
    by_contra hc
    push_neg at hc
    nlinarith [hs_quad, hd.2, mul_pos hs_pos (show (0 : ℝ) < -1.2925 - z by linarith),
      mul_pos (show (0 : ℝ) < s - 0.72475 by linarith)
        (show (0 : ℝ) < s + 3.3095 by linarith)]
  have hs_tol : |s - 0.7245| ≤ 1 / 1000 := by
    rw [abs_le]
    constructor <;> linarith
  have hL44 := log_consts_bounds.1
  have hm_lo : (10.450385 : ℝ) ≤ m := by
    rw [hmm]
    nlinarith [hL44.1, hs_lo, hs_hi, hs_pos]
  have hm_hi : m ≤ 10.4507483 := by
    rw [hmm]
    nlinarith [hL44.2, hs_lo, hs_pos]
  have hm_tol : |m - 10.4506| ≤ 1 / 1000 := by
    rw [abs_le]
    constructor <;> linarith
  have hcp := count_poverty_ok hfit (show (0 : ℝ) < 14545 by norm_num) hs_pos.ne'
  set u := (Real.log 14545 - m) / s with huu
  have hL14 := log_consts_bounds.2.1
  have hu_hi : u ≤ -1.1940 := by
    rw [huu, div_le_iff hs_pos]
    nlinarith [hL14.2, hm_lo, hs_hi]
  have hu_lo : -(1.1955 : ℝ) ≤ u := by
    rw [huu, le_div_iff hs_pos]
    nlinarith [hL14.1, hm_hi, hs_lo]
  have hcdf_lo : (0.11590 : ℝ) ≤ normCdf u := by
    have hmono := strictMono_normCdf.monotone hu_lo
    linarith [normCdf_bracket_bounds.2.2.1]
  have hcdf_hi : normCdf u ≤ 0.11628 := by
    have hmono := strictMono_normCdf.monotone hu_hi
    linarith [normCdf_bracket_bounds.2.2.2]
  refine ⟨m, s, round4 (normCdf u) * 100, hfit, hm_tol, hs_tol, hcp, ?_⟩
  have hr := round4_sub_le (normCdf u)
  rw [abs_le] at hr ⊢
  constructor <;> nlinarith [hr.1, hr.2, hcdf_lo, hcdf_hi]

/-- C4 (counterexample): with percentage `150 ∉ (0,100)`, the constructor
performs no validation and `find_params` raises no `DomainError`: it returns
the numeric pair `(0, 0)` (the solver's stale iterate `0` makes the radicand
`0² + 2·ln(1/1) = 0`, so all arithmetic succeeds). -/
theorem c4_counterexample :
    (100 : ℝ) < 150 ∧ (init 1 1 150).find_params = Except.ok (0, 0) := by
  have hu : (init 1 1 150).find_upper_limit = 0 := by
    apply find_upper_limit_eq_zero_of_no_root
    apply no_root_of_one_le
    rw [init_poverty]
    norm_num
  have hlog : Real.log ((init 1 1 150).average_income /
      (init 1 1 150).poverty_line) = 0 := by
    norm_num [init]
  have hrad : (0 : ℝ) ≤ (init 1 1 150).find_upper_limit ^ 2 +
      2 * Real.log ((init 1 1 150).average_income / (init 1 1 150).poverty_line) := by
    rw [hu, hlog]
    norm_num
  have h := find_params_of_pos
    (show (0 : ℝ) < (init 1 1 150).poverty_line by norm_num [init])
    (show (0 : ℝ) < (init 1 1 150).average_income by norm_num [init]) hrad
  refine ⟨by norm_num, ?_⟩
  rw [h, hu, hlog]
  norm_num [init]

/-- C4 (amended): no range check on the percentage exists anywhere; e.g. with
`averageIncome = thresholdValue > 0` the radicand equals `u² ≥ 0`, so
`find_params` returns a numeric result for EVERY percentage `p`, including
values outside `(0,100)`. -/
theorem c4_no_validation (a p : ℝ) (ha : 0 < a) :
    (init a a p).find_params = Except.ok
      (Real.log a - 0.5 * ((init a a p).find_upper_limit +
        |(init a a p).find_upper_limit|) ^ 2,
      (init a a p).find_upper_limit + |(init a a p).find_upper_limit|) := by
  have hdiv : (init a a p).average_income / (init a a p).poverty_line = 1 :=
    div_self ha.ne'
  have hlog : Real.log ((init a a p).average_income / (init a a p).poverty_line)
      = 0 := by
    rw [hdiv, Real.log_one]
  have hrad : (0 : ℝ) ≤ (init a a p).find_upper_limit ^ 2 +
      2 * Real.log ((init a a p).average_income / (init a a p).poverty_line) := by
    rw [hlog]
    nlinarith [sq_nonneg ((init a a p).find_upper_limit)]
  have h := find_params_of_pos (show (0 : ℝ) < (init a a p).poverty_line from ha)
    (show (0 : ℝ) < (init a a p).average_income from ha) hrad
  rw [h, hlog, show (init a a p).find_upper_limit ^ 2 + 2 * 0
      = (init a a p).find_upper_limit ^ 2 by ring, Real.sqrt_sq_eq_abs]
  rfl

/-- Witness for C4 (amended) at `(1, 1, 150)`. -/
theorem c4_no_validation_witness :
    (init 1 1 150).find_params = Except.ok
      (Real.log 1 - 0.5 * ((init 1 1 150).find_upper_limit +
        |(init 1 1 150).find_upper_limit|) ^ 2,
      (init 1 1 150).find_upper_limit + |(init 1 1 150).find_upper_limit|) :=
  c4_no_validation 1 150 one_pos

/-- C5 (counterexample): for percentage `150` the target probability is `1.5`
and `Φ(z) = 1.5` has no root, yet `find_upper_limit` raises no
`ConvergenceError`: it returns the solver's stale iterate (the initial guess
`0`) as if it were the answer. -/
theorem c5_counterexample :
    ¬(∃ z, normCdf z = (init 1 1 150).poverty) ∧
    (init 1 1 150).find_upper_limit = 0 := by
  have hnr : ¬∃ z, normCdf z = (init 1 1 150).poverty := by
    apply no_root_of_one_le
    rw [init_poverty]
    norm_num
  exact ⟨hnr, find_upper_limit_eq_zero_of_no_root hnr⟩

/-- C5 (amended): whenever the percentage is at least `100` (target
probability ≥ 1, outside the range of `Φ`), `fsolve` finds no root and —
instead of failing with a `ConvergenceError` — returns its stale last
iterate, which `find_upper_limit` passes to the caller unchanged. -/
theorem c5_stale_iterate (a t p : ℝ) (hp : 100 ≤ p) :
    (init a t p).find_upper_limit = 0 := by
  apply find_upper_limit_eq_zero_of_no_root
  apply no_root_of_one_le
  rw [init_poverty]
  linarith

/-- Witness for C5 (amended) at `(2, 3, 100)`. -/
theorem c5_stale_iterate_witness : (init 2 3 100).find_upper_limit = 0 :=
  c5_stale_iterate 2 3 100 le_rfl

/-- C6 (counterexample): at the valid input `(1, 1, 50)` the solved scale is
`0`, which is not strictly positive, yet `find_params` raises no
`DomainError` and returns the `DistributionParams` `(0, 0)`. -/
theorem c6_counterexample :
    (init 1 1 50).find_params = Except.ok (0, 0) ∧ ¬(0 : ℝ) < 0 :=
  ⟨find_params_one_one_fifty, lt_irrefl 0⟩

/-- C6 (amended): `find_params` never checks the sign of the solved scale;
whenever `z ≤ 0`, `averageIncome ≤ thresholdValue` and the radicand is
nonnegative, it returns — without any error — a scale
`z + √(z² + 2·ln(A/T)) ≤ 0`. -/
theorem c6_nonpositive_scale (a t p z : ℝ) (ha : 0 < a) (ht : 0 < t)
    (hz : normCdf z = p / 100) (hz0 : z ≤ 0) (hat : a ≤ t)
    (hrad : 0 ≤ z ^ 2 + 2 * Real.log (a / t)) :
    (init a t p).find_params = Except.ok
      (Real.log a - 0.5 * (z + Real.sqrt (z ^ 2 + 2 * Real.log (a / t))) ^ 2,
       z + Real.sqrt (z ^ 2 + 2 * Real.log (a / t))) ∧
    z + Real.sqrt (z ^ 2 + 2 * Real.log (a / t)) ≤ 0 := by
  refine ⟨find_params_closed ha ht hz hrad, ?_⟩
  have hlog : Real.log (a / t) ≤ 0 :=
    Real.log_nonpos (div_pos ha ht).le ((div_le_one ht).mpr hat)
  have h1 : z ^ 2 + 2 * Real.log (a / t) ≤ z ^ 2 := by linarith
  have h2 : Real.sqrt (z ^ 2 + 2 * Real.log (a / t)) ≤ -z := by
    calc Real.sqrt (z ^ 2 + 2 * Real.log (a / t)) ≤ Real.sqrt (z ^ 2) :=
      Real.sqrt_le_sqrt h1
    _ = |z| := Real.sqrt_sq_eq_abs z
    _ = -z := abs_of_nonpos hz0
  linarith

/-- Witness for C6 (amended) at `(1, 1, 50)` with `z = 0`. -/
theorem c6_nonpositive_scale_witness :
    (init 1 1 50).find_params = Except.ok
      (Real.log 1 - 0.5 * ((0 : ℝ) + Real.sqrt ((0 : ℝ) ^ 2 +
        2 * Real.log ((1 : ℝ) / 1))) ^ 2,
       (0 : ℝ) + Real.sqrt ((0 : ℝ) ^ 2 + 2 * Real.log ((1 : ℝ) / 1))) ∧
    (0 : ℝ) + Real.sqrt ((0 : ℝ) ^ 2 + 2 * Real.log ((1 : ℝ) / 1)) ≤ 0 :=
  c6_nonpositive_scale 1 1 50 0 one_pos one_pos (by rw [normCdf_zero]; norm_num)
    le_rfl le_rfl (by simp)

/-- C7 (counterexample): `count_poverty` with `newThreshold = -1 ≤ 0` fails
with the `ValueError` raised by `math.log` (a math domain error occurring
before any integration), not with an `IntegrationError`. -/
theorem c7_counterexample :
    (init 1 1 50).count_poverty (-1) = Except.error PyErr.valueError :=
  count_poverty_err_of_nonpos find_params_one_one_fifty (by norm_num)

/-- C7 (amended): whenever `find_params` succeeds and `newThreshold ≤ 0`,
`count_poverty` fails with the `ValueError` of `math.log` before the
integration is reached; the quadrature itself contributes no exception (quad
reports non-convergence through a warning and still returns its estimate). -/
theorem c7_nonpositive_threshold (h : HackParams) (ps : ℝ × ℝ) (nl : ℝ)
    (hfit : h.find_params = Except.ok ps) (hnl : nl ≤ 0) :
    h.count_poverty nl = Except.error PyErr.valueError :=
  count_poverty_err_of_nonpos hfit hnl

/-- Witness for C7 (amended) at `(e², 1, 50)` with `newThreshold = 0`. -/
theorem c7_nonpositive_threshold_witness :
    (init (Real.exp 2) 1 50).count_poverty 0 = Except.error PyErr.valueError :=
  c7_nonpositive_threshold (init (Real.exp 2) 1 50) (0, 2) 0 find_params_exp2 le_rfl

/-- C8 (counterexample): `negScaleInstance` is built from a fully valid input
triple, and its thresholds `1 ≤ e` are positive, yet
`count_poverty e < count_poverty 1`: the fitted scale is negative, so the
evaluator is strictly decreasing there. -/
theorem c8_counterexample :
    (0 : ℝ) < 1 ∧ (1 : ℝ) ≤ Real.exp 1 ∧
    negScaleInstance.count_poverty 1 = Except.ok (round4 (normCdf (-1)) * 100) ∧
    negScaleInstance.count_poverty (Real.exp 1) =
      Except.ok (round4 (normCdf (-3)) * 100) ∧
    round4 (normCdf (-3)) * 100 < round4 (normCdf (-1)) * 100 := by
  have hc1 : negScaleInstance.count_poverty 1 =
      Except.ok (round4 (normCdf (-1)) * 100) := by
    rw [count_poverty_ok negScale_find_params one_pos (by norm_num)]
    norm_num [Real.log_one]
  have hce : negScaleInstance.count_poverty (Real.exp 1) =
      Except.ok (round4 (normCdf (-3)) * 100) := by
    rw [count_poverty_ok negScale_find_params (Real.exp_pos 1) (by norm_num)]
    norm_num [Real.log_exp]
  have hgap : normCdf (-3) + 1 / 10 ^ 4 ≤ normCdf (-1) := by
    have hsplit := integral_Iic_split (show (-3 : ℝ) ≤ -1 by norm_num)
    have hconst : ∫ t in Ioc (-3 : ℝ) (-1), (fun _ : ℝ => Real.exp (-(9 : ℝ) / 2)) t =
        2 * Real.exp (-(9 : ℝ) / 2) := by
      rw [setIntegral_const, Real.volume_Ioc]
      rw [show (-1 : ℝ) - -3 = 2 by norm_num, ENNReal.toReal_ofReal (by norm_num)]
      rw [smul_eq_mul]
    have hmono : 2 * Real.exp (-(9 : ℝ) / 2) ≤
        ∫ t in Ioc (-3 : ℝ) (-1), integrand t := by
      rw [← hconst]
      apply setIntegral_mono_on _ (integrableOn_integrand _) measurableSet_Ioc
      · intro t ht
        obtain ⟨ht1, ht2⟩ := ht
        unfold integrand
        apply Real.exp_le_exp.mpr
        nlinarith [mul_pos (show (0 : ℝ) < t + 3 by linarith)
          (show (0 : ℝ) < 3 - t by linarith)]
      · apply integrableOn_const.mpr
        exact Or.inr measure_Ioc_lt_top
    have hexp5 : Real.exp 5 ≤ 243 := by
      have h1 : Real.exp 5 = Real.exp 1 ^ 5 := by
        rw [← Real.exp_nat_mul]
        norm_num
      have h2 : Real.exp 1 ^ 5 ≤ 3 ^ 5 := by
        apply pow_le_pow_left (Real.exp_nonneg 1)
        linarith [Real.exp_one_lt_d9]
      rw [h1]
      calc Real.exp 1 ^ 5 ≤ 3 ^ 5 := h2
      _ ≤ 243 := by norm_num
    have hstp : Real.sqrt (2 * Real.pi) ≤ 2.6 := by
      have h1 : (2 : ℝ) * Real.pi ≤ 6.76 := by nlinarith [Real.pi_lt_d2]
      calc Real.sqrt (2 * Real.pi) ≤ Real.sqrt 6.76 := Real.sqrt_le_sqrt h1
      _ = 2.6 := by
          rw [show (6.76 : ℝ) = 2.6 ^ 2 by norm_num, Real.sqrt_sq (by norm_num)]
    have hexp : (1 : ℝ) / 243 ≤ Real.exp (-(9 : ℝ) / 2) := by
      have h9 : Real.exp ((9 : ℝ) / 2) ≤ 243 :=
        le_trans (Real.exp_le_exp.mpr (by norm_num)) hexp5
      rw [show -(9 : ℝ) / 2 = -((9 : ℝ) / 2) by norm_num, Real.exp_neg, one_div]
      exact inv_le_inv_of_le (Real.exp_pos _) h9
    have hdiv : (1 : ℝ) / 10 ^ 4 ≤
        (∫ t in Ioc (-3 : ℝ) (-1), integrand t) / Real.sqrt (2 * Real.pi) := by
      rw [le_div_iff sqrt_two_pi_pos]
      nlinarith [hmono, hexp, hstp]
    have heq : normCdf (-1) = normCdf (-3) +
        (∫ t in Ioc (-3 : ℝ) (-1), integrand t) / Real.sqrt (2 * Real.pi) := by
      show (∫ t in Iic (-1 : ℝ), integrand t) / Real.sqrt (2 * Real.pi) =
        (∫ t in Iic (-3 : ℝ), integrand t) / Real.sqrt (2 * Real.pi) +
        (∫ t in Ioc (-3 : ℝ) (-1), integrand t) / Real.sqrt (2 * Real.pi)
      rw [hsplit, add_div]
    rw [heq]
    linarith
  refine ⟨one_pos, ?_, hc1, hce, ?_⟩
  · linarith [Real.add_one_le_exp 1]
  · nlinarith [round4_strict hgap]

/-- C8 (amended): for a fixed `HackParams` instance whose fitted scale is
positive, `count_poverty` is non-decreasing in the threshold over positive
thresholds. -/
theorem c8_monotone (h : HackParams) (m s a b : ℝ)
    (hfit : h.find_params = Except.ok (m, s)) (hs : 0 < s)
    (ha : 0 < a) (hab : a ≤ b) :
    h.count_poverty a = Except.ok (round4 (normCdf ((Real.log a - m) / s)) * 100) ∧
    h.count_poverty b = Except.ok (round4 (normCdf ((Real.log b - m) / s)) * 100) ∧
    round4 (normCdf ((Real.log a - m) / s)) * 100 ≤
      round4 (normCdf ((Real.log b - m) / s)) * 100 := by
  have hb : 0 < b := lt_of_lt_of_le ha hab
  refine ⟨count_poverty_ok hfit ha hs.ne', count_poverty_ok hfit hb hs.ne', ?_⟩
  have hlog : Real.log a ≤ Real.log b := Real.log_le_log ha hab
  have hdiv2 : (Real.log a - m) / s ≤ (Real.log b - m) / s :=
    (div_le_div_right hs).mpr (by linarith)
  have hcdf := strictMono_normCdf.monotone hdiv2
  nlinarith [round4_mono hcdf]

/-- Witness for C8 (amended) at `(e², 1, 50)` with thresholds `1 ≤ e`. -/
theorem c8_monotone_witness :
    (init (Real.exp 2) 1 50).count_poverty 1 =
      Except.ok (round4 (normCdf ((Real.log 1 - 0) / 2)) * 100) ∧
    (init (Real.exp 2) 1 50).count_poverty (Real.exp 1) =
      Except.ok (round4 (normCdf ((Real.log (Real.exp 1) - 0) / 2)) * 100) ∧
    round4 (normCdf ((Real.log 1 - 0) / 2)) * 100 ≤
      round4 (normCdf ((Real.log (Real.exp 1) - 0) / 2)) * 100 :=
  c8_monotone (init (Real.exp 2) 1 50) 0 2 1 (Real.exp 1) find_params_exp2 two_pos
    one_pos (by nlinarith [Real.add_one_le_exp 1])

/-- C9: the constructor divides the percentage by 100 once; every successful
`count_poverty` result equals `Φ(u)` rounded to 4 decimal places FIRST and
only then multiplied by 100, hence it lies in `[0, 100]`. -/
theorem c9_rounding_and_bounds (a t p : ℝ) (h : HackParams) (m s nl r : ℝ)
    (hfit : h.find_params = Except.ok (m, s))
    (hr : h.count_poverty nl = Except.ok r) :
    (init a t p).poverty = p / 100 ∧
    r = round4 (normCdf ((Real.log nl - m) / s)) * 100 ∧
    0 ≤ r ∧ r ≤ 100 := by
  obtain ⟨m2, s2, hfp2, hnl, hs2, hval⟩ := count_poverty_ok_inv hr
  rw [hfit] at hfp2
  injection hfp2 with hpair
  obtain ⟨hm2, hs2eq⟩ := Prod.ext_iff.mp hpair
  subst hm2
  subst hs2eq
  refine ⟨init_poverty a t p, hval, ?_, ?_⟩
  · rw [hval]
    nlinarith [round4_nonneg (show 0 < normCdf ((Real.log nl - m) / s) from
      div_pos (integral_Iic_pos _) sqrt_two_pi_pos).le]
  · rw [hval]
    nlinarith [round4_le_one (normCdf_lt_one ((Real.log nl - m) / s)).le]

/-- Witness for C9: `(init 1 1 5).poverty = 0.05`, and the call
`count_poverty 1` on the `(e², 1, 50)` instance returns `50 ∈ [0, 100]`. -/
theorem c9_rounding_and_bounds_witness :
    (init 1 1 5).poverty = 5 / 100 ∧
    (50 : ℝ) = round4 (normCdf ((Real.log 1 - 0) / 2)) * 100 ∧
    (0 : ℝ) ≤ 50 ∧ (50 : ℝ) ≤ 100 :=
  c9_rounding_and_bounds 1 1 5 (init (Real.exp 2) 1 50) 0 2 1 50
    find_params_exp2 count_poverty_exp2_at_one

/-- C10: the quantity `ln_x0 = ln(average_income) − 0.5·σ²` recomputed inside
`count_poverty` is exactly the location `mu` returned by `find_params`, so
the standardized variable used for the integration is
`u = (ln(newThreshold) − mu)/σ`. -/
theorem c10_lnx0_eq_mu (h : HackParams) (m s nl r : ℝ)
    (hfit : h.find_params = Except.ok (m, s))
    (hcount : h.count_poverty nl = Except.ok r) :
    Real.log h.average_income - 0.5 * s ^ 2 = m ∧
    r = round4 (normCdf ((Real.log nl - m) / s)) * 100 := by
  obtain ⟨_, _, _, _, hm⟩ := find_params_ok_inv hfit
  obtain ⟨m2, s2, hfp2, hnl, hs2, hval⟩ := count_poverty_ok_inv hcount
  rw [hfit] at hfp2
  injection hfp2 with hpair
  obtain ⟨hm2, hs2eq⟩ := Prod.ext_iff.mp hpair
  subst hm2
  subst hs2eq
  exact ⟨hm.symm, hval⟩

/-- Witness for C10 at `(e², 1, 50)` with `newThreshold = 1`. -/
theorem c10_lnx0_eq_mu_witness :
    Real.log (init (Real.exp 2) 1 50).average_income - 0.5 * (2 : ℝ) ^ 2 = 0 ∧
    (50 : ℝ) = round4 (normCdf ((Real.log 1 - 0) / 2)) * 100 :=
  c10_lnx0_eq_mu (init (Real.exp 2) 1 50) 0 2 1 50 find_params_exp2
    count_poverty_exp2_at_one

end PovertyHack
